import Mathlib

/-!
Verification of the rule-based legal-document analyzer (`SimpleLegalDemystifier`
in `demo.py`) against its natural-language specification.

Modelling conventions:
* Python strings are modelled as `List Char`; the repository's vocabulary,
  punctuation and sample document are ASCII, so the regex classes are modelled
  with their ASCII semantics: `\s` is the six ASCII whitespace characters,
  `\w` is `[A-Za-z0-9_]`, `\d` is `[0-9]`, and lowercasing is ASCII
  `Char.toLower`.
* `str.replace` and `str.split` on a multi-character separator scan left to
  right over non-overlapping occurrences; they are written with an explicit
  fuel argument (`fuel = length of the scanned string` always suffices, each
  step consumes at least one character) so that the definitions reduce by
  `decide` on concrete inputs.
* `re.findall(pat, text, re.IGNORECASE)` is modelled per pattern by a matcher
  that attempts the pattern at one position; `findAll` advances over the text
  exactly as `findall` does: on a match it records the matched slice and
  resumes after it, otherwise it moves one character right.  Note that under
  `re.IGNORECASE` the classes `[A-Z]` and `[a-z]` both match every letter.
* Python's `list(set(terms))` has an unspecified iteration order; it is
  modelled by `List.dedup` (duplicates removed); only membership in the
  result is ever relied upon.
* `float` averages are modelled as exact rationals `ℚ`; the presentation-only
  field `round(avg, 1)` of the readability dict is omitted, the exact average
  and the integer counts are kept.
* File I/O, the CLI menu, JSON persistence and the timestamp field are outside
  the analysis pipeline and are not modelled; `analyze` is the body of
  `analyze_document` from the point where the text has been read (the spec's
  `analyze(text) -> AnalysisReport`).
-/

namespace LegalDemo

/-- ASCII model of the regex class `\s` (and of `str.strip` / `str.split()`
whitespace): space, tab, newline, carriage return, vertical tab, form feed. -/
def pyIsSpace (c : Char) : Bool :=
  c = ' ' || c = '\t' || c = '\n' || c = '\r' || c = '\x0b' || c = '\x0c'

/-- ASCII model of the regex class `\w`: letters, digits and underscore. -/
def isWordCh (c : Char) : Bool :=
  ('a' ≤ c && c ≤ 'z') || ('A' ≤ c && c ≤ 'Z') || ('0' ≤ c && c ≤ '9') || c = '_'

/-- ASCII letters (what `[A-Z]` and `[a-z]` match under `re.IGNORECASE`). -/
def isLetterCh (c : Char) : Bool :=
  ('a' ≤ c && c ≤ 'z') || ('A' ≤ c && c ≤ 'Z')

/-- ASCII digits (the regex class `\d`). -/
def isDigitCh (c : Char) : Bool :=
  '0' ≤ c && c ≤ '9'

/-- The characters kept by `clean_text`'s second substitution
`re.sub(r'[^\w\s.,;:!?()-]', '', text)`: word characters, whitespace and the
punctuation set `. , ; : ! ? ( ) -`. -/
def isKeptCh (c : Char) : Bool :=
  isWordCh c || pyIsSpace c ||
    c = '.' || c = ',' || c = ';' || c = ':' || c = '!' || c = '?' ||
    c = '(' || c = ')' || c = '-'

/-- Worker for `re.sub(r'\s+', ' ', text)`: replaces each maximal whitespace
run by a single space.  The flag records whether the previous character was
part of a whitespace run already emitted as a space. -/
def collapseWsAux : Bool → List Char → List Char
  | _, [] => []
  | prevWs, c :: cs =>
    if pyIsSpace c then
      if prevWs then collapseWsAux true cs
      else ' ' :: collapseWsAux true cs
    else c :: collapseWsAux false cs

/-- `re.sub(r'\s+', ' ', text)`. -/
def collapseWs (l : List Char) : List Char :=
  collapseWsAux false l

/-- Remove a trailing whitespace run (the right half of `str.strip()`). -/
def pyStripRight (l : List Char) : List Char :=
  (l.reverse.dropWhile pyIsSpace).reverse

/-- Python `str.strip()`: remove leading and trailing whitespace. -/
def pyStrip (l : List Char) : List Char :=
  pyStripRight (l.dropWhile pyIsSpace)

/-- `SimpleLegalDemystifier.clean_text`:
`text = re.sub(r'\s+', ' ', text)`, then
`text = re.sub(r'[^\w\s.,;:!?()-]', '', text)`, then `text.strip()`. -/
def clean_text (text : List Char) : List Char :=
  pyStrip ((collapseWs text).filter isKeptCh)

/-- Worker for `str.split(sep)`: `acc` is the current segment reversed,
`out` the finished segments in reverse order (accumulators keep the
evaluation iterative). -/
def pySplitOnAux (sep : Char) : List Char → List (List Char) → List Char →
    List (List Char)
  | acc, out, [] => (acc.reverse :: out).reverse
  | acc, out, c :: cs =>
    if c = sep then pySplitOnAux sep [] (acc.reverse :: out) cs
    else pySplitOnAux sep (c :: acc) out cs

/-- Python `str.split(sep)` for a single-character separator: keeps empty
segments, `"".split(sep) == ['']`. -/
def pySplitOn (sep : Char) (l : List Char) : List (List Char) :=
  pySplitOnAux sep [] [] l

/-- Worker for `str.split()` with no argument: split on whitespace runs and
drop empty words.  The accumulator holds the current word reversed. -/
def pySplitWsAux : List Char → List Char → List (List Char)
  | acc, [] => if acc.isEmpty then [] else [acc.reverse]
  | acc, c :: cs =>
    if pyIsSpace c then
      if acc.isEmpty then pySplitWsAux [] cs
      else acc.reverse :: pySplitWsAux [] cs
    else pySplitWsAux (c :: acc) cs

/-- Python `str.split()` (no argument). -/
def pySplitWs (l : List Char) : List (List Char) :=
  pySplitWsAux [] l

/-- Worker for `str.replace(old, new)` with non-empty `old`: scan left to
right, replacing non-overlapping occurrences and resuming after each
replacement.  `fuel ≥ length of the scanned list` makes the fuel irrelevant,
since every step consumes at least one character. -/
def replaceFuel (pat rep : List Char) : Nat → List Char → List Char
  | _, [] => []
  | 0, s => s
  | fuel + 1, c :: cs =>
    if pat.isPrefixOf (c :: cs) && !pat.isEmpty then
      rep ++ replaceFuel pat rep fuel ((c :: cs).drop pat.length)
    else
      c :: replaceFuel pat rep fuel cs

/-- Python `s.replace(pat, rep)` (all the patterns used in `demo.py` are
non-empty literals). -/
def pyReplace (s pat rep : List Char) : List Char :=
  replaceFuel pat rep s.length s

/-- Worker for `str.split(sep)` with a multi-character separator, same fuel
discipline as `replaceFuel`. -/
def splitSubFuel (pat : List Char) : Nat → List Char → List (List Char)
  | _, [] => [[]]
  | 0, s => [s]
  | fuel + 1, c :: cs =>
    if pat.isPrefixOf (c :: cs) && !pat.isEmpty then
      [] :: splitSubFuel pat fuel ((c :: cs).drop pat.length)
    else
      match splitSubFuel pat fuel cs with
      | [] => [[c]]
      | p :: ps => (c :: p) :: ps

/-- Python `s.split(pat)` for a multi-character separator. -/
def pySplitOnSub (s pat : List Char) : List (List Char) :=
  splitSubFuel pat s.length s

/-- Python's substring test `needle in hay`. -/
def containsSub (needle : List Char) : List Char → Bool
  | [] => needle.isEmpty
  | c :: cs => needle.isPrefixOf (c :: cs) || containsSub needle cs

/-- ASCII lowercasing of a string (Python `str.lower` on ASCII text). -/
def lowerStr (s : List Char) : List Char :=
  s.map Char.toLower

/-- Case-insensitive literal match at the start of `s`; returns the remainder
of `s` after the literal on success. -/
def matchCaseless : List Char → List Char → Option (List Char)
  | [], s => some s
  | _ :: _, [] => none
  | p :: ps, c :: cs =>
    if Char.toLower c = Char.toLower p then matchCaseless ps cs else none

/-- A regex word boundary `\b` immediately before a word character, given the
character preceding the current position (`none` at the start of the text). -/
def bdBefore : Option Char → Bool
  | none => true
  | some c => !isWordCh c

/-- A regex word boundary `\b` immediately after a word character, given the
rest of the text. -/
def bdAfterOk : List Char → Bool
  | [] => true
  | c :: _ => !isWordCh c

/-! ### The eleven patterns of `extract_key_terms`

Each pattern is modelled by a matcher `Option Char → List Char →
Option (List Char × List Char)` that attempts the pattern at the current
position (the `Option Char` is the preceding character, for `\b`) and returns
the matched slice and the remaining text.  All the matchers only succeed on a
non-empty slice. -/

def agreementWord : List Char := "agreement".data

/-- Chain step for `(?:\s+[A-Z][a-z]+)*\s+Agreement\b` under `re.IGNORECASE`:
starting just after a word token, follow `whitespace-run + letter-token
(≥ 2 letters)` groups and return the number of characters consumed up to the
farthest token that is caselessly `agreement` and is followed by a word
boundary (the greedy star backtracks from the longest extension), together
with the rest of the text after that token.  `none` if no such token exists. -/
def agreeChain : Nat → List Char → Option (Nat × List Char)
  | 0, _ => none
  | fuel + 1, rest =>
    let w := rest.takeWhile pyIsSpace
    if w.isEmpty then none
    else
      let r1 := rest.drop w.length
      let tok := r1.takeWhile isLetterCh
      if tok.length < 2 then none
      else
        let r2 := r1.drop tok.length
        let here : Option (Nat × List Char) :=
          if (lowerStr tok == agreementWord) && bdAfterOk r2 then
            some (w.length + tok.length, r2)
          else none
        match agreeChain fuel r2 with
        | some (n, rr) => some (w.length + tok.length + n, rr)
        | none => here

/-- `r'\b[A-Z][a-z]+(?:\s+[A-Z][a-z]+)*\s+Agreement\b'` with `re.IGNORECASE`
(so each token is just a maximal run of at least two letters). -/
def tryAgreement (prev : Option Char) (s : List Char) :
    Option (List Char × List Char) :=
  if !bdBefore prev then none
  else
    let t1 := s.takeWhile isLetterCh
    if t1.length < 2 then none
    else
      match agreeChain s.length (s.drop t1.length) with
      | some (n, rest) => some (s.take (t1.length + n), rest)
      | none => none

/-- `r'\bterms?\s+(?:and\s+)?conditions?\b'` with `re.IGNORECASE`.  The
optional pieces are taken greedily; as the next required character after each
optional piece can never also satisfy the piece, no backtracking is needed. -/
def tryTermsCond (prev : Option Char) (s : List Char) :
    Option (List Char × List Char) :=
  if !bdBefore prev then none
  else
    match matchCaseless "term".data s with
    | none => none
    | some r1 =>
      let r2 := match r1 with
        | c :: cs => if Char.toLower c = 's' then cs else r1
        | [] => r1
      let w := r2.takeWhile pyIsSpace
      if w.isEmpty then none
      else
        let r3 := r2.drop w.length
        let r4 := match matchCaseless "and".data r3 with
          | some ra =>
            let w2 := ra.takeWhile pyIsSpace
            if w2.isEmpty then r3 else ra.drop w2.length
          | none => r3
        match matchCaseless "condition".data r4 with
        | none => none
        | some r5 =>
          let r6 := match r5 with
            | c :: cs => if Char.toLower c = 's' then cs else r5
            | [] => r5
          if bdAfterOk r6 then some (s.take (s.length - r6.length), r6)
          else none

/-- Suffix shape of the single-word patterns: the bare word (`\bword\b`), or
with `\w*` (`\bword\w*\b`), or with `\w+` (`\bword\w+\b`). -/
inductive WordSuf
  | bare
  | star
  | plus

/-- A single-word pattern `\bword(suffix)\b` under `re.IGNORECASE`. -/
def tryWordPat (w : List Char) (mode : WordSuf) (prev : Option Char)
    (s : List Char) : Option (List Char × List Char) :=
  if !bdBefore prev then none
  else
    match matchCaseless w s with
    | none => none
    | some rest =>
      match mode with
      | .bare =>
        if bdAfterOk rest then some (s.take w.length, rest) else none
      | .star =>
        let ext := rest.takeWhile isWordCh
        some (s.take (w.length + ext.length), rest.drop ext.length)
      | .plus =>
        let ext := rest.takeWhile isWordCh
        if ext.isEmpty then none
        else some (s.take (w.length + ext.length), rest.drop ext.length)

/-- A two-word pattern `\bword1\s+word2\b` under `re.IGNORECASE`
(`r'\bgoverning\s+law\b'`). -/
def tryPhrase (w1 w2 : List Char) (prev : Option Char) (s : List Char) :
    Option (List Char × List Char) :=
  if !bdBefore prev then none
  else
    match matchCaseless w1 s with
    | none => none
    | some r1 =>
      let w := r1.takeWhile pyIsSpace
      if w.isEmpty then none
      else
        match matchCaseless w2 (r1.drop w.length) with
        | none => none
        | some r2 =>
          if bdAfterOk r2 then some (s.take (s.length - r2.length), r2)
          else none

/-- `re.findall`: try the matcher at every position from left to right; on a
match record the slice and resume right after it, otherwise advance one
character.  The matchers above never match an empty slice, and each step
consumes at least one character, so `fuel = length of the text` suffices. -/
def findAllFuel (m : Option Char → List Char → Option (List Char × List Char)) :
    Nat → Option Char → List Char → List (List Char)
  | 0, _, _ => []
  | _ + 1, _, [] => []
  | fuel + 1, prev, c :: cs =>
    match m prev (c :: cs) with
    | some (mt, rest) => mt :: findAllFuel m fuel mt.getLast? rest
    | none => findAllFuel m fuel (some c) cs

/-- `re.findall(pattern, text, re.IGNORECASE)` for one pattern matcher. -/
def findAll (m : Option Char → List Char → Option (List Char × List Char))
    (s : List Char) : List (List Char) :=
  findAllFuel m s.length none s

/-- `SimpleLegalDemystifier.extract_key_terms`: run the eleven patterns in
order, concatenate all matches, and deduplicate (`list(set(terms))`; the
Python set iteration order is unspecified, only membership is meaningful). -/
def extract_key_terms (text : List Char) : List (List Char) :=
  let terms :=
    findAll tryAgreement text ++
    findAll tryTermsCond text ++
    findAll (tryWordPat "liability".data .bare) text ++
    findAll (tryWordPat "indemnif".data .plus) text ++
    findAll (tryWordPat "warrant".data .plus) text ++
    findAll (tryPhrase "governing".data "law".data) text ++
    findAll (tryWordPat "jurisdiction".data .bare) text ++
    findAll (tryWordPat "arbitration".data .bare) text ++
    findAll (tryWordPat "confidential".data .star) text ++
    findAll (tryWordPat "termination".data .bare) text ++
    findAll (tryWordPat "payment".data .bare) text
  terms.dedup

/-! ### Document structure -/

/-- `re.match(r'^\s*\d+\.', s)` as a Boolean: optional leading whitespace,
then at least one digit, then a period.  (The regex `\d+` is greedy but a
shorter digit run is necessarily followed by another digit, never by `.`, so
maximal-run matching is equivalent.) -/
def matchSecRe (s : List Char) : Bool :=
  let t := s.dropWhile pyIsSpace
  let ds := t.takeWhile isDigitCh
  !ds.isEmpty && ((t.drop ds.length).head? == some '.')

/-- The dot-separated, stripped, non-empty sentences
(`[s.strip() for s in text.split('.') if s.strip()]`). -/
def dotSentences (text : List Char) : List (List Char) :=
  ((pySplitOn '.' text).map pyStrip).filter (fun s => !s.isEmpty)

/-- The `structure` entry of the analysis report. -/
structure StructureInfo where
  sections : List (List Char)
  sentence_count : Nat
  paragraph_count : Nat
  avg_sentence_length : ℚ
deriving DecidableEq

/-- `SimpleLegalDemystifier.analyze_document_structure`. -/
def analyze_document_structure (text : List Char) : StructureInfo :=
  let lines := pySplitOn '\n' text
  let sections := ((lines.map pyStrip).filter matchSecRe)
  let sentences := dotSentences text
  let paragraphs :=
    ((pySplitOnSub text ('\n' :: '\n' :: [])).map pyStrip).filter
      (fun p => !p.isEmpty)
  { sections := sections
    sentence_count := sentences.length
    paragraph_count := paragraphs.length
    avg_sentence_length :=
      if sentences.isEmpty then 0
      else ((sentences.map (fun s => (pySplitWs s).length)).sum : ℚ) /
        (sentences.length : ℚ) }

/-! ### Summary -/

def important_indicators : List (List Char) :=
  ["agree".data, "shall".data, "payment".data, "liability".data,
    "termination".data, "confidential".data, "governing law".data,
    "dispute".data]

/-- `any(indicator in sentence.lower() for indicator in important_indicators)`. -/
def hasIndicator (s : List Char) : Bool :=
  important_indicators.any (fun ind => containsSub ind (lowerStr s))

/-- The sentence pool of `create_simple_summary`:
`[s.strip() for s in text.split('.') if s.strip() and len(s) > 20]` (note the
length test is on the segment before stripping). -/
def summarySentences (text : List Char) : List (List Char) :=
  ((pySplitOn '.' text).filter
    (fun s => !(pyStrip s).isEmpty && decide (20 < s.length))).map pyStrip

/-- The selection loop of `create_simple_summary` over `sentences[1:]`, with
`n` the number of sentences collected so far: indicator-bearing sentences are
appended only while fewer than 4 are collected. -/
def summaryLoop : List (List Char) → Nat → List (List Char)
  | [], _ => []
  | s :: ss, n =>
    if hasIndicator s then
      if n < 4 then s :: summaryLoop ss (n + 1) else summaryLoop ss n
    else summaryLoop ss n

/-- `'. '.join(xs)`. -/
def joinDotSpace (xs : List (List Char)) : List Char :=
  List.intercalate ('.' :: ' ' :: []) xs

/-- `SimpleLegalDemystifier.create_simple_summary`. -/
def create_simple_summary (text : List Char) : List Char :=
  let sentences := summarySentences text
  let summary_sentences :=
    match sentences with
    | [] => []
    | first :: rest => first :: summaryLoop rest 1
  joinDotSpace summary_sentences ++ ['.']

/-! ### Obligations and risks -/

def obligation_words : List (List Char) :=
  ["shall".data, "must".data, "agrees to".data, "required to".data,
    "responsible for".data]

def hasObligationWord (s : List Char) : Bool :=
  obligation_words.any (fun w => containsSub w (lowerStr s))

def clientStr : List Char := "The Client".data
def youStr : List Char := "You".data
def providerStr : List Char := "The Provider".data
def serviceProviderStr : List Char := "The service provider".data
def shallStr : List Char := "shall".data
def mustStr : List Char := "must".data

/-- The three in-order literal substitutions applied to a selected obligation
sentence. -/
def simplify_sentence (s : List Char) : List Char :=
  pyReplace (pyReplace (pyReplace s clientStr youStr)
    providerStr serviceProviderStr) shallStr mustStr

/-- `SimpleLegalDemystifier.extract_key_obligations`. -/
def extract_key_obligations (text : List Char) : List (List Char) :=
  (((dotSentences text).filter hasObligationWord).map simplify_sentence).take 6

def risk_indicators : List (List Char) :=
  ["liability".data, "penalty".data, "fee".data, "terminate".data,
    "breach".data, "default".data, "damages".data, "dispute".data,
    "arbitration".data, "court".data]

def hasRiskWord (s : List Char) : Bool :=
  risk_indicators.any (fun w => containsSub w (lowerStr s))

/-- The warning marker prefixed to each risk sentence (`f"⚠️ {sentence}"`). -/
def warningMark : List Char := "⚠️ ".data

/-- `SimpleLegalDemystifier.identify_risks_and_warnings`. -/
def identify_risks_and_warnings (text : List Char) : List (List Char) :=
  (((dotSentences text).filter hasRiskWord).map
    (fun s => warningMark ++ s)).take 5

/-! ### Readability -/

/-- Result of `calculate_readability`: either the zero-sentence sentinel dict
`("N/A", "Unable to calculate")` or a scored dict (average, counts, score and
level labels; the presentation-only `round(avg, 1)` field is omitted). -/
inductive Readability
  | unable
  | scored (avg_words_per_sentence : ℚ) (total_words total_sentences : Nat)
      (score level : List Char)
deriving DecidableEq

/-- The sentence list of `calculate_readability`:
`[s for s in text.split('.') if s.strip()]` (unstripped segments). -/
def readabilitySentences (text : List Char) : List (List Char) :=
  (pySplitOn '.' text).filter (fun s => !(pyStrip s).isEmpty)

/-- `SimpleLegalDemystifier.calculate_readability`. -/
def calculate_readability (text : List Char) : Readability :=
  let words := pySplitWs text
  let sentences := readabilitySentences text
  if sentences.isEmpty then .unable
  else
    let avg : ℚ := (words.length : ℚ) / (sentences.length : ℚ)
    if avg < 15 then
      .scored avg words.length sentences.length "Good".data "Easy to read".data
    else if avg < 25 then
      .scored avg words.length sentences.length "Fair".data
        "Moderate difficulty".data
    else
      .scored avg words.length sentences.length "Complex".data
        "Difficult to read".data

/-! ### The analysis report and pipeline -/

/-- The report returned by `analyze_document` (the `document_info` file path
and timestamp are I/O-level and not modelled; `word_count` is kept). -/
structure Report where
  word_count : Nat
  key_terms : List (List Char)
  structureInfo : StructureInfo
  plain_language_summary : List Char
  key_obligations : List (List Char)
  risks_and_warnings : List (List Char)
  readability : Readability
  original_preview : List Char
deriving DecidableEq

/-- The analysis pipeline of `analyze_document` (from `clean_text` on): every
step is applied to the cleaned text. -/
def analyze (text : List Char) : Report :=
  let cleaned := clean_text text
  { word_count := (pySplitWs cleaned).length
    key_terms := extract_key_terms cleaned
    structureInfo := analyze_document_structure cleaned
    plain_language_summary := create_simple_summary cleaned
    key_obligations := extract_key_obligations cleaned
    risks_and_warnings := identify_risks_and_warnings cleaned
    readability := calculate_readability cleaned
    original_preview :=
      if 300 < cleaned.length then cleaned.take 300 ++ "...".data
      else cleaned }

/-! ### Exception-instrumented pipeline

Python raises `ZeroDivisionError` on integer/float division by zero and
`IndexError` on out-of-range indexing.  The variants below are the same
functions with each such partial operation routed through `Option` (`none`
would be an unhandled exception), keeping exactly the guards present in the
source; `analyzeOpt text = some (analyze text)` is the statement that the
pipeline never raises. -/

/-- Division as a partial operation: `none` is `ZeroDivisionError`. -/
def safeDiv (a b : ℚ) : Option ℚ :=
  if b = 0 then none else some (a / b)

/-- `analyze_document_structure` with its division instrumented. -/
def analyze_document_structureOpt (text : List Char) : Option StructureInfo :=
  let lines := pySplitOn '\n' text
  let sections := ((lines.map pyStrip).filter matchSecRe)
  let sentences := dotSentences text
  let paragraphs :=
    ((pySplitOnSub text ('\n' :: '\n' :: [])).map pyStrip).filter
      (fun p => !p.isEmpty)
  let avgM :=
    if sentences.isEmpty then some 0
    else safeDiv ((sentences.map (fun s => (pySplitWs s).length)).sum : ℚ)
      (sentences.length : ℚ)
  avgM.map (fun avg =>
    { sections := sections
      sentence_count := sentences.length
      paragraph_count := paragraphs.length
      avg_sentence_length := avg })

/-- `create_simple_summary` with the `sentences[0]` indexing instrumented
(the source guards it with `if sentences:`). -/
def create_simple_summaryOpt (text : List Char) : Option (List Char) :=
  let sentences := summarySentences text
  let initM : Option (List (List Char)) :=
    if sentences.isEmpty then some []
    else sentences.head?.map (fun h => [h])
  initM.map (fun ini =>
    joinDotSpace (ini ++ summaryLoop (sentences.drop 1) ini.length) ++ ['.'])

/-- `calculate_readability` with its division instrumented (the source
guards it with `if not sentences:`). -/
def calculate_readabilityOpt (text : List Char) : Option Readability :=
  let words := pySplitWs text
  let sentences := readabilitySentences text
  if sentences.isEmpty then some .unable
  else
    (safeDiv (words.length : ℚ) (sentences.length : ℚ)).map (fun avg =>
      if avg < 15 then
        .scored avg words.length sentences.length "Good".data
          "Easy to read".data
      else if avg < 25 then
        .scored avg words.length sentences.length "Fair".data
          "Moderate difficulty".data
      else
        .scored avg words.length sentences.length "Complex".data
          "Difficult to read".data)

/-- The pipeline with every partial operation instrumented. -/
def analyzeOpt (text : List Char) : Option Report :=
  let cleaned := clean_text text
  match analyze_document_structureOpt cleaned,
      create_simple_summaryOpt cleaned, calculate_readabilityOpt cleaned with
  | some st, some sm, some rd =>
    some
      { word_count := (pySplitWs cleaned).length
        key_terms := extract_key_terms cleaned
        structureInfo := st
        plain_language_summary := sm
        key_obligations := extract_key_obligations cleaned
        risks_and_warnings := identify_risks_and_warnings cleaned
        readability := rd
        original_preview :=
          if 300 < cleaned.length then cleaned.take 300 ++ "...".data
          else cleaned }
  | _, _, _ => none

/-- The sample document of `create_sample_legal_text` (the exact triple-quoted
literal, indentation and trailing spaces included). -/
def sampleLegalText : List Char :=
  "\n    SERVICE AGREEMENT\n    \n    This Service Agreement is entered into between Company XYZ (Provider) and the Client.\n    \n    1. SERVICES\n    Provider agrees to perform consulting services as described in Exhibit A. All services shall be \n    performed in a professional manner according to industry standards.\n    \n    2. PAYMENT TERMS\n    Client agrees to pay Provider the fees outlined in Exhibit A. Payment is due within thirty (30) \n    days of invoice date. Late payments may incur a fee of 1.5% per month.\n    \n    3. CONFIDENTIALITY\n    Both parties agree to maintain confidentiality of all shared information and not disclose \n    it to third parties without written consent.\n    \n    4. LIABILITY LIMITATION\n    Provider's liability shall not exceed the total amount paid by Client under this Agreement. \n    Provider shall not be liable for indirect, incidental, or consequential damages.\n    \n    5. GOVERNING LAW\n    This Agreement shall be governed by state law. Disputes shall be resolved through binding arbitration.\n    \n    6. TERMINATION\n    Either party may terminate this Agreement with thirty (30) days written notice.\n    ".data

/-! ### Specification-side definitions (for refinement claims) -/

/-- The summariser's sentence pool in the spec's words: the dot-separated
sentences longer than 20 characters (and not blank), taken in trimmed form. -/
def qualifyingSentences (text : List Char) : List (List Char) :=
  ((pySplitOn '.' text).filter
    (fun s => !(pyStrip s).isEmpty && decide (20 < s.length))).map pyStrip

/-- The summary as the spec describes it: the first qualifying sentence,
then the indicator-bearing ones among the rest in order until 4 sentences
total are collected, joined with `". "` plus a trailing period; a single
period when no sentence qualifies. -/
def summarySpec (text : List Char) : List Char :=
  match qualifyingSentences text with
  | [] => ['.']
  | first :: rest =>
    joinDotSpace (first :: (rest.filter hasIndicator).take 3) ++ ['.']

/-! ### Lemmas about the summary loop -/

lemma summaryLoop_eq_take :
    ∀ (ss : List (List Char)) (n : Nat), n ≤ 4 →
      summaryLoop ss n = (ss.filter hasIndicator).take (4 - n) := by
  intro ss
  induction ss with
  | nil => intro n _; simp [summaryLoop]
  | cons s ss ih =>
    intro n hn
    by_cases hs : hasIndicator s = true
    · by_cases hlt : n < 4
      · have h4 : 4 - n = (4 - (n + 1)) + 1 := by omega
        simp [summaryLoop, hs, hlt, h4, ih (n + 1) hlt, List.filter_cons]
      · have hn4 : n = 4 := by omega
        subst hn4
        simp [summaryLoop, hs, ih 4 le_rfl, List.filter_cons]
    · simp [summaryLoop, hs, ih n hn, List.filter_cons]

/-- C5 helper: the code's summary equals the spec-side description. -/
lemma create_simple_summary_eq (text : List Char) :
    create_simple_summary text = summarySpec text := by
  unfold create_simple_summary summarySpec
  have hq : qualifyingSentences text = summarySentences text := rfl
  rw [hq]
  cases h : summarySentences text with
  | nil => rfl
  | cons first rest =>
    have hloop := summaryLoop_eq_take rest 1 (by omega)
    norm_num at hloop
    dsimp only
    rw [hloop]

/-- C5: for every input, the summariser selects only dot-separated sentences
longer than 20 characters (kept in trimmed form), always includes the first
such sentence, appends in order the indicator-bearing ones until 4 sentences
total are collected, joins them with `". "` plus a trailing period, and
returns exactly `"."` when no sentence qualifies. -/
theorem spec_C5 (text : List Char) :
    create_simple_summary text = summarySpec text ∧
    (qualifyingSentences text = [] → create_simple_summary text = ['.']) := by
  refine ⟨create_simple_summary_eq text, fun h => ?_⟩
  rw [create_simple_summary_eq text]
  unfold summarySpec
  rw [h]

/-- C5 witness: the empty-pool case at a concrete input. -/
theorem spec_C5_witness :
    create_simple_summary "Short. Tiny.".data = ['.'] :=
  (spec_C5 "Short. Tiny.".data).2 (by decide)

/-- C6: on the single sentence `"The Client shall pay within 30 days."` the
obligation extractor returns exactly one entry, with `"The Client"` rewritten
to `"You"` and `"shall"` rewritten to `"must"`. -/
theorem spec_C6 :
    extract_key_obligations "The Client shall pay within 30 days.".data =
      ["You must pay within 30 days".data] := by decide

/-- C7: the obligation list has at most 6 entries, the risk list at most 5,
and each is an in-order sublist of (the rewriting, resp. warning-prefixing,
of) the document's sentence sequence — original order is preserved. -/
theorem spec_C7 (text : List Char) :
    (extract_key_obligations text).length ≤ 6 ∧
    (identify_risks_and_warnings text).length ≤ 5 ∧
    (extract_key_obligations text).Sublist
      ((dotSentences text).map simplify_sentence) ∧
    (identify_risks_and_warnings text).Sublist
      ((dotSentences text).map (fun s => warningMark ++ s)) := by
  refine ⟨?_, ?_, ?_, ?_⟩
  · unfold extract_key_obligations
    rw [List.length_take]
    exact min_le_left _ _
  · unfold identify_risks_and_warnings
    rw [List.length_take]
    exact min_le_left _ _
  · unfold extract_key_obligations
    exact (List.take_sublist _ _).trans
      (List.Sublist.map _ (List.filter_sublist _))
  · unfold identify_risks_and_warnings
    exact (List.take_sublist _ _).trans
      (List.Sublist.map _ (List.filter_sublist _))

/-- C8: with no (non-blank) dot-separated sentence the readability scorer
returns the `"N/A"`/`"Unable to calculate"` sentinel; with at least one
sentence it returns a scored tier whose average is the exact quotient of the
word count by the sentence count. -/
lemma calculate_readability_unable {text : List Char}
    (h : readabilitySentences text = []) :
    calculate_readability text = .unable := by
  simp [calculate_readability, h]

lemma calculate_readability_scored {text : List Char}
    (h : readabilitySentences text ≠ []) :
    ∃ q sc lv,
      calculate_readability text =
        .scored q (pySplitWs text).length (readabilitySentences text).length
          sc lv ∧
      q = ((pySplitWs text).length : ℚ) /
        ((readabilitySentences text).length : ℚ) ∧
      ((sc, lv) = ("Good".data, "Easy to read".data) ∨
        (sc, lv) = ("Fair".data, "Moderate difficulty".data) ∨
        (sc, lv) = ("Complex".data, "Difficult to read".data)) := by
  have hne : (readabilitySentences text).isEmpty = false := by
    simpa [List.isEmpty_iff] using h
  simp only [calculate_readability, hne, Bool.false_eq_true, if_false]
  set q : ℚ := ((pySplitWs text).length : ℚ) /
    ((readabilitySentences text).length : ℚ) with hqdef
  by_cases h15 : q < 15
  · exact ⟨q, _, _, by simp [h15], rfl, Or.inl rfl⟩
  · by_cases h25 : q < 25
    · exact ⟨q, _, _, by simp [h15, h25], rfl, Or.inr (Or.inl rfl)⟩
    · exact ⟨q, _, _, by simp [h15, h25], rfl, Or.inr (Or.inr rfl)⟩

theorem spec_C8 (text : List Char) :
    (readabilitySentences text = [] → calculate_readability text = .unable) ∧
    (readabilitySentences text ≠ [] →
      ∃ q sc lv,
        calculate_readability text =
          .scored q (pySplitWs text).length (readabilitySentences text).length
            sc lv ∧
        q = ((pySplitWs text).length : ℚ) /
          ((readabilitySentences text).length : ℚ) ∧
        ((sc, lv) = ("Good".data, "Easy to read".data) ∨
          (sc, lv) = ("Fair".data, "Moderate difficulty".data) ∨
          (sc, lv) = ("Complex".data, "Difficult to read".data))) :=
  ⟨fun h => calculate_readability_unable h,
    fun h => calculate_readability_scored h⟩

/-! ### Whitespace structure of `clean_text` output -/

/-- No two adjacent whitespace characters (no whitespace run longer than 1). -/
def noAdjWs : List Char → Bool
  | c :: d :: rest => !(pyIsSpace c && pyIsSpace d) && noAdjWs (d :: rest)
  | _ => true

/-- The first character, if any, is not whitespace. -/
def headNotWs : List Char → Bool
  | [] => true
  | c :: _ => !pyIsSpace c

/-- Every whitespace character is a plain space. -/
def allWsSpace (l : List Char) : Bool :=
  l.all (fun c => !pyIsSpace c || c = ' ')

lemma noAdjWs_cons {c : Char} {l : List Char} (h : noAdjWs (c :: l) = true) :
    noAdjWs l = true := by
  cases l with
  | nil => rfl
  | cons d l' =>
    simp only [noAdjWs, Bool.and_eq_true] at h
    exact h.2

lemma noAdjWs_cons_of (c : Char) (l : List Char) (h1 : noAdjWs l = true)
    (h2 : pyIsSpace c = false ∨ headNotWs l = true) :
    noAdjWs (c :: l) = true := by
  cases l with
  | nil => rfl
  | cons d l' =>
    simp only [noAdjWs, Bool.and_eq_true, Bool.not_eq_true']
    refine ⟨?_, h1⟩
    rcases h2 with h2 | h2
    · simp [h2]
    · simp only [headNotWs, Bool.not_eq_true'] at h2
      simp [h2]

lemma headNotWs_of_noAdj {c : Char} {l : List Char}
    (h : noAdjWs (c :: l) = true) (hc : pyIsSpace c = true) :
    headNotWs l = true := by
  cases l with
  | nil => rfl
  | cons d l' =>
    simp only [noAdjWs, Bool.and_eq_true, Bool.not_eq_true',
      Bool.and_eq_false_iff] at h
    rcases h.1 with h1 | h1
    · rw [hc] at h1; cases h1
    · simp [headNotWs, h1]

lemma noAdjWs_append_left : ∀ (t l : List Char),
    noAdjWs (t ++ l) = true → noAdjWs l = true := by
  intro t
  induction t with
  | nil => intro l h; exact h
  | cons c t' ih => intro l h; exact ih l (noAdjWs_cons h)

lemma noAdjWs_append_right : ∀ (l t : List Char),
    noAdjWs (l ++ t) = true → noAdjWs l = true := by
  intro l
  induction l with
  | nil => intro t _; rfl
  | cons c l' ih =>
    intro t h
    cases l' with
    | nil => rfl
    | cons d l'' =>
      simp only [List.cons_append, noAdjWs, Bool.and_eq_true] at h ⊢
      exact ⟨h.1, ih t h.2⟩

lemma collapseWsAux_mem : ∀ (l : List Char) (b : Bool) (c : Char),
    c ∈ collapseWsAux b l → c = ' ' ∨ (c ∈ l ∧ pyIsSpace c = false) := by
  intro l
  induction l with
  | nil => intro b c h; simp [collapseWsAux] at h
  | cons d l' ih =>
    intro b c h
    by_cases hd : pyIsSpace d = true
    · cases b with
      | true =>
        simp only [collapseWsAux, hd, if_true] at h
        rcases ih true c h with h1 | ⟨h2, h3⟩
        · exact Or.inl h1
        · exact Or.inr ⟨List.mem_cons_of_mem _ h2, h3⟩
      | false =>
        simp only [collapseWsAux, hd, if_true] at h
        rcases List.mem_cons.mp h with h1 | h1
        · exact Or.inl h1
        · rcases ih true c h1 with h2 | ⟨h2, h3⟩
          · exact Or.inl h2
          · exact Or.inr ⟨List.mem_cons_of_mem _ h2, h3⟩
    · have hd' : pyIsSpace d = false := by simpa using hd
      simp only [collapseWsAux, hd', Bool.false_eq_true, if_false] at h
      rcases List.mem_cons.mp h with h1 | h1
      · subst h1; exact Or.inr ⟨List.mem_cons_self _ _, hd'⟩
      · rcases ih false c h1 with h2 | ⟨h2, h3⟩
        · exact Or.inl h2
        · exact Or.inr ⟨List.mem_cons_of_mem _ h2, h3⟩

lemma collapseWsAux_noAdj : ∀ (l : List Char) (b : Bool),
    noAdjWs (collapseWsAux b l) = true ∧
      (b = true → headNotWs (collapseWsAux b l) = true) := by
  intro l
  induction l with
  | nil => intro b; exact ⟨rfl, fun _ => rfl⟩
  | cons d l' ih =>
    intro b
    by_cases hd : pyIsSpace d = true
    · cases b with
      | true => simpa [collapseWsAux, hd] using ih true
      | false =>
        simp only [collapseWsAux, hd, if_true]
        constructor
        · exact noAdjWs_cons_of ' ' _ (ih true).1 (Or.inr ((ih true).2 rfl))
        · intro hb; cases hb
    · have hd' : pyIsSpace d = false := by simpa using hd
      simp only [collapseWsAux, hd', Bool.false_eq_true, if_false]
      constructor
      · exact noAdjWs_cons_of d _ (ih false).1 (Or.inl hd')
      · intro _; simp [headNotWs, hd']

lemma collapseWsAux_allWsSpace : ∀ (l : List Char) (b : Bool),
    allWsSpace (collapseWsAux b l) = true := by
  intro l b
  rw [allWsSpace, List.all_eq_true]
  intro c hc
  rcases collapseWsAux_mem l b c hc with rfl | ⟨_, h2⟩
  · decide
  · simp [h2]

lemma collapseWsAux_eq_self : ∀ (l : List Char) (b : Bool),
    noAdjWs l = true → allWsSpace l = true →
    (b = true → headNotWs l = true) → collapseWsAux b l = l := by
  intro l
  induction l with
  | nil => intro b _ _ _; rfl
  | cons d l' ih =>
    intro b h1 h2 h3
    have h2' := List.all_eq_true.mp h2
    have h2l' : allWsSpace l' = true := by
      rw [allWsSpace, List.all_eq_true]
      exact fun c hc => h2' c (List.mem_cons_of_mem _ hc)
    by_cases hd : pyIsSpace d = true
    · have hdsp : d = ' ' := by
        have := h2' d (List.mem_cons_self _ _)
        simpa [hd] using this
      cases b with
      | true =>
        have := h3 rfl
        simp [headNotWs, hd] at this
      | false =>
        simp only [collapseWsAux, hd, if_true, Bool.false_eq_true, if_false]
        rw [ih true (noAdjWs_cons h1) h2l'
          (fun _ => headNotWs_of_noAdj h1 hd), hdsp]
    · have hd' : pyIsSpace d = false := by simpa using hd
      simp only [collapseWsAux, hd', Bool.false_eq_true, if_false]
      rw [ih false (noAdjWs_cons h1) h2l' (fun hb => by cases hb)]

/-! ### `dropWhile`, `pyStripRight`, `pyStrip` -/

lemma headNotWs_dropWhile (l : List Char) :
    headNotWs (l.dropWhile pyIsSpace) = true := by
  induction l with
  | nil => rfl
  | cons c cs ih =>
    by_cases hc : pyIsSpace c = true
    · simpa [List.dropWhile, hc] using ih
    · have hc' : pyIsSpace c = false := by simpa using hc
      simp [List.dropWhile, hc', headNotWs]

lemma dropWhile_eq_self_of_headNot (l : List Char)
    (h : headNotWs l = true) : l.dropWhile pyIsSpace = l := by
  cases l with
  | nil => rfl
  | cons c cs =>
    simp only [headNotWs, Bool.not_eq_true'] at h
    simp [List.dropWhile, h]

lemma dropWhile_ws_idem (l : List Char) :
    (l.dropWhile pyIsSpace).dropWhile pyIsSpace = l.dropWhile pyIsSpace :=
  dropWhile_eq_self_of_headNot _ (headNotWs_dropWhile l)

lemma stripRight_append (l : List Char) :
    ∃ t, pyStripRight l ++ t = l := by
  refine ⟨(l.reverse.takeWhile pyIsSpace).reverse, ?_⟩
  unfold pyStripRight
  rw [← List.reverse_append, List.takeWhile_append_dropWhile,
    List.reverse_reverse]

lemma stripRight_idem (l : List Char) :
    pyStripRight (pyStripRight l) = pyStripRight l := by
  unfold pyStripRight
  rw [List.reverse_reverse, dropWhile_ws_idem]

lemma noAdjWs_stripRight {l : List Char} (h : noAdjWs l = true) :
    noAdjWs (pyStripRight l) = true := by
  obtain ⟨t, ht⟩ := stripRight_append l
  exact noAdjWs_append_right _ t (by rw [ht]; exact h)

lemma headNot_stripRight {l : List Char} (h : headNotWs l = true) :
    headNotWs (pyStripRight l) = true := by
  obtain ⟨t, ht⟩ := stripRight_append l
  cases hsr : pyStripRight l with
  | nil => rfl
  | cons c r =>
    rw [hsr] at ht
    rw [← ht] at h
    exact h

lemma mem_of_mem_stripRight {c : Char} {l : List Char}
    (h : c ∈ pyStripRight l) : c ∈ l := by
  obtain ⟨t, ht⟩ := stripRight_append l
  rw [← ht]
  exact List.mem_append_left _ h

lemma mem_of_mem_pyStrip {c : Char} {l : List Char}
    (h : c ∈ pyStrip l) : c ∈ l := by
  unfold pyStrip at h
  have h1 : c ∈ l.dropWhile pyIsSpace := mem_of_mem_stripRight h
  have h2 := List.takeWhile_append_dropWhile pyIsSpace l
  rw [← h2]
  exact List.mem_append_right _ h1

lemma noAdjWs_dropWhile_of {l : List Char} (h : noAdjWs l = true) :
    noAdjWs (l.dropWhile pyIsSpace) = true := by
  apply noAdjWs_append_left (l.takeWhile pyIsSpace)
  rw [List.takeWhile_append_dropWhile]
  exact h

lemma noAdjWs_pyStrip_of {l : List Char} (h : noAdjWs l = true) :
    noAdjWs (pyStrip l) = true :=
  noAdjWs_stripRight (noAdjWs_dropWhile_of h)

lemma headNotWs_pyStrip (l : List Char) : headNotWs (pyStrip l) = true :=
  headNot_stripRight (headNotWs_dropWhile l)

lemma pyStrip_idem (l : List Char) : pyStrip (pyStrip l) = pyStrip l := by
  conv_lhs => rw [pyStrip]
  rw [dropWhile_eq_self_of_headNot _ (headNotWs_pyStrip l)]
  unfold pyStrip
  exact stripRight_idem _

/-! ### Facts about `clean_text` -/

lemma mem_clean_text {c : Char} {l : List Char} (h : c ∈ clean_text l) :
    isKeptCh c = true ∧ (pyIsSpace c = true → c = ' ') := by
  unfold clean_text at h
  have h1 := mem_of_mem_pyStrip h
  have h2 := List.mem_filter.mp h1
  refine ⟨h2.2, fun hws => ?_⟩
  rcases collapseWsAux_mem l false c h2.1 with h3 | ⟨_, h3⟩
  · exact h3
  · rw [hws] at h3; cases h3

lemma clean_text_eq_strip_collapse (l : List Char)
    (h : ∀ c ∈ l, isKeptCh c = true) :
    clean_text l = pyStrip (collapseWs l) := by
  unfold clean_text
  congr 1
  apply List.filter_eq_self.mpr
  intro c hc
  rcases collapseWsAux_mem l false c hc with rfl | ⟨hmem, _⟩
  · decide
  · exact h c hmem

lemma pyStrip_clean_text (l : List Char) :
    pyStrip (clean_text l) = clean_text l := by
  unfold clean_text
  exact pyStrip_idem _

lemma headNotWs_clean_text (l : List Char) :
    headNotWs (clean_text l) = true := by
  unfold clean_text
  exact headNotWs_pyStrip _

lemma clean_text_idem_of_kept (l : List Char)
    (h : ∀ c ∈ l, isKeptCh c = true) :
    clean_text (clean_text l) = clean_text l := by
  have h1 : clean_text l = pyStrip (collapseWs l) :=
    clean_text_eq_strip_collapse l h
  have hnoadj : noAdjWs (clean_text l) = true := by
    rw [h1]
    exact noAdjWs_pyStrip_of (collapseWsAux_noAdj l false).1
  have hws : allWsSpace (clean_text l) = true := by
    rw [allWsSpace, List.all_eq_true]
    intro c hc
    rcases collapseWsAux_mem l false c
        (by rw [h1] at hc; exact mem_of_mem_pyStrip hc) with rfl | ⟨_, h3⟩
    · decide
    · simp [h3]
  have hcoll : collapseWs (clean_text l) = clean_text l :=
    collapseWsAux_eq_self _ false hnoadj hws (fun hb => by cases hb)
  have hkept : ∀ c ∈ clean_text l, isKeptCh c = true :=
    fun c hc => (mem_clean_text hc).1
  conv_lhs => rw [clean_text]
  rw [hcoll, List.filter_eq_self.mpr hkept, pyStrip_clean_text]

/-! ### The claimed character set of the cleaned text (no underscore) -/

/-- The character set named by the specification's invariant:
`[A-Za-z0-9 .,;:!?()-]` (note: without underscore). -/
def c3Allowed (c : Char) : Bool :=
  ('A' ≤ c && c ≤ 'Z') || ('a' ≤ c && c ≤ 'z') || ('0' ≤ c && c ≤ '9') ||
    c = ' ' || c = '.' || c = ',' || c = ';' || c = ':' || c = '!' ||
    c = '?' || c = '(' || c = ')' || c = '-'

/-- C3 counterexample: the claimed invariant fails on both counts.  The
underscore survives cleaning (`\w` keeps it) although it is outside the
claimed character set, and deleting a disallowed character between two
single spaces leaves a double space. -/
theorem spec_C3_counterexample :
    (¬ ∀ text : List Char, ∀ c ∈ clean_text text, c3Allowed c = true) ∧
    (¬ ∀ text : List Char, noAdjWs (clean_text text) = true) := by
  constructor
  · intro h
    exact absurd (h ['_'] '_' (by decide)) (by decide)
  · intro h
    exact absurd (h ('a' :: ' ' :: '\x01' :: ' ' :: 'b' :: [])) (by decide)

/-- C3 (amended): the cleaned text contains only characters kept by the
source's filter — `[A-Za-z0-9_ .,;:!?()-]` plus whitespace, with every
whitespace character being a plain space (so underscores may remain);
and on inputs all of whose characters are kept, no whitespace run longer
than one space remains (in general a deleted disallowed character can
leave a double space behind). -/
theorem spec_C3_amended (text : List Char) :
    (∀ c ∈ clean_text text,
      isKeptCh c = true ∧ (pyIsSpace c = true → c = ' ')) ∧
    ((∀ c ∈ text, isKeptCh c = true) → noAdjWs (clean_text text) = true) := by
  constructor
  · intro _ hc
    exact mem_clean_text hc
  · intro h
    rw [clean_text_eq_strip_collapse text h]
    exact noAdjWs_pyStrip_of (collapseWsAux_noAdj text false).1

/-- C3 witness: the amended invariant applied at concrete inputs. -/
theorem spec_C3_amended_witness :
    (isKeptCh 'a' = true ∧ (pyIsSpace 'a' = true → 'a' = ' ')) ∧
    noAdjWs (clean_text ('a' :: ' ' :: ' ' :: 'b' :: [])) = true :=
  ⟨(spec_C3_amended ('a' :: 'b' :: []) ).1 'a' (by decide),
    (spec_C3_amended ('a' :: ' ' :: ' ' :: 'b' :: [])).2 (by decide)⟩

/-- C4 counterexample: `clean_text` is not idempotent.  On `"a \x01 b"` the
first pass deletes `\x01` and leaves the double space `"a  b"`, which the
second pass collapses to `"a b"`. -/
theorem spec_C4_counterexample :
    clean_text (clean_text ('a' :: ' ' :: '\x01' :: ' ' :: 'b' :: [])) ≠
      clean_text ('a' :: ' ' :: '\x01' :: ' ' :: 'b' :: []) := by decide

/-- C4 (amended): `clean_text` is idempotent from its second application on:
applying it twice reaches a fixed point. -/
theorem spec_C4_amended (text : List Char) :
    clean_text (clean_text (clean_text text)) =
      clean_text (clean_text text) :=
  clean_text_idem_of_kept (clean_text text)
    (fun _ hc => (mem_clean_text hc).1)

/-! ### Sections on the cleaned text (claim C9) -/

lemma pySplitOnAux_no_sep {sep : Char} :
    ∀ (cs acc : List Char) (out : List (List Char)), sep ∉ cs →
      pySplitOnAux sep acc out cs = ((acc.reverse ++ cs) :: out).reverse := by
  intro cs
  induction cs with
  | nil => intro acc out _; simp [pySplitOnAux]
  | cons c cs' ih =>
    intro acc out h
    have hcs : sep ∉ cs' := fun hh => h (List.mem_cons_of_mem _ hh)
    have hc : ¬c = sep := fun hh => h (hh ▸ List.mem_cons_self _ _)
    rw [pySplitOnAux, if_neg hc, ih (c :: acc) out hcs]
    simp

lemma pySplitOn_eq_single {sep : Char} :
    ∀ l : List Char, sep ∉ l → pySplitOn sep l = [l] := by
  intro l h
  unfold pySplitOn
  rw [pySplitOnAux_no_sep l [] [] h]
  simp

lemma newline_not_mem_clean_text (l : List Char) : '\n' ∉ clean_text l := by
  intro h
  have := (mem_clean_text h).2 (by decide)
  exact absurd this (by decide)

/-- The output of the cleaner contains no space character at its head, so
`re.match(r'^\s*\d+\.', ...)` on it is just "begins with digits then a
period". -/
def beginsDigitsDot (s : List Char) : Bool :=
  let ds := s.takeWhile isDigitCh
  !ds.isEmpty && ((s.drop ds.length).head? == some '.')

lemma matchSecRe_eq_begins {s : List Char} (h : headNotWs s = true) :
    matchSecRe s = beginsDigitsDot s := by
  unfold matchSecRe beginsDigitsDot
  rw [dropWhile_eq_self_of_headNot s h]

lemma analyze_sections_eq (text : List Char) :
    (analyze text).structureInfo.sections =
      if matchSecRe (clean_text text) then [clean_text text] else [] := by
  have hsplit : pySplitOn '\n' (clean_text text) = [clean_text text] :=
    pySplitOn_eq_single _ (newline_not_mem_clean_text text)
  show (analyze_document_structure (clean_text text)).sections = _
  unfold analyze_document_structure
  simp only [hsplit, List.map_cons, List.map_nil, pyStrip_clean_text,
    List.filter_cons, List.filter_nil]

/-- C9: the pipeline runs structure detection on the cleaned text, whose
newlines were all collapsed, so the report's section list never has more
than one entry, and it is non-empty only when the whole cleaned text begins
with digits followed by a period. -/
theorem spec_C9 (text : List Char) :
    ((analyze text).structureInfo.sections).length ≤ 1 ∧
    ((analyze text).structureInfo.sections ≠ [] →
      beginsDigitsDot (clean_text text) = true) := by
  rw [analyze_sections_eq text]
  constructor
  · split <;> simp
  · intro h
    rw [← matchSecRe_eq_begins (headNotWs_clean_text text)]
    by_contra hm
    rw [if_neg (by simpa using hm)] at h
    exact h rfl

/-- C9 witness: a document whose cleaned text starts with a numbered
section marker. -/
theorem spec_C9_witness :
    ((analyze "1. hi".data).structureInfo.sections).length ≤ 1 ∧
    beginsDigitsDot (clean_text "1. hi".data) = true :=
  ⟨(spec_C9 "1. hi".data).1, (spec_C9 "1. hi".data).2 (by decide)⟩

/-- C8 witness: both branches at concrete inputs. -/
theorem spec_C8_witness :
    calculate_readability [] = .unable ∧
    (∃ q sc lv,
      calculate_readability "Hello there.".data =
        .scored q (pySplitWs "Hello there.".data).length
          (readabilitySentences "Hello there.".data).length sc lv ∧
      q = ((pySplitWs "Hello there.".data).length : ℚ) /
        ((readabilitySentences "Hello there.".data).length : ℚ) ∧
      ((sc, lv) = ("Good".data, "Easy to read".data) ∨
        (sc, lv) = ("Fair".data, "Moderate difficulty".data) ∨
        (sc, lv) = ("Complex".data, "Difficult to read".data))) :=
  ⟨(spec_C8 []).1 (by decide), (spec_C8 "Hello there.".data).2 (by decide)⟩

/-! ### The pipeline never raises (claim C2) -/

lemma structureOpt_eq (text : List Char) :
    analyze_document_structureOpt text =
      some (analyze_document_structure text) := by
  unfold analyze_document_structureOpt analyze_document_structure safeDiv
  by_cases h : (dotSentences text).isEmpty = true
  · simp [h]
  · have hne : ((dotSentences text).length : ℚ) ≠ 0 := by
      have h0 : dotSentences text ≠ [] := by simpa [List.isEmpty_iff] using h
      simpa using h0
    simp [h, hne]

lemma summaryOpt_eq (text : List Char) :
    create_simple_summaryOpt text = some (create_simple_summary text) := by
  unfold create_simple_summaryOpt create_simple_summary
  cases h : summarySentences text with
  | nil => simp [h, summaryLoop]
  | cons a l => simp [h]

lemma readabilityOpt_eq (text : List Char) :
    calculate_readabilityOpt text = some (calculate_readability text) := by
  unfold calculate_readabilityOpt calculate_readability safeDiv
  by_cases h : (readabilitySentences text).isEmpty = true
  · simp [h]
  · have hne : ((readabilitySentences text).length : ℚ) ≠ 0 := by
      have h0 : readabilitySentences text ≠ [] := by
        simpa [List.isEmpty_iff] using h
      simpa using h0
    simp [h, hne]

/-- Sentence-wise absence of the risk vocabulary. -/
def riskFree (t : List Char) : Bool :=
  (dotSentences t).all (fun s => !hasRiskWord s)

/-- C2: the instrumented pipeline (every division and indexing routed
through `Option`) returns `some` of the total report on every input — no
step raises, and the report carries every field; and when the cleaned text
has no risk vocabulary the `risks_and_warnings` field is the empty list
(present, not omitted). -/
theorem spec_C2 (text : List Char) :
    analyzeOpt text = some (analyze text) ∧
    (riskFree (clean_text text) = true →
      (analyze text).risks_and_warnings = []) := by
  constructor
  · unfold analyzeOpt analyze
    simp only [structureOpt_eq, summaryOpt_eq, readabilityOpt_eq]
  · intro h
    show identify_risks_and_warnings (clean_text text) = []
    unfold identify_risks_and_warnings
    have hnil : (dotSentences (clean_text text)).filter hasRiskWord = [] := by
      rw [List.filter_eq_nil_iff]
      intro a ha
      have := (List.all_eq_true.mp h) a ha
      simpa using this
    rw [hnil]
    rfl

/-- C2 witness: a risk-free document gets an empty (but present) risk list. -/
theorem spec_C2_witness :
    (analyze "Hello there.".data).risks_and_warnings = [] :=
  (spec_C2 "Hello there.".data).2 (by decide)

/-! ### The obligation rewrites are plain case-sensitive substring
replacements (claim C10) -/

lemma isPrefixOf_true_iff : ∀ (p s : List Char),
    p.isPrefixOf s = true ↔ p <+: s := by
  intro p
  induction p with
  | nil => intro s; simp [List.isPrefixOf]
  | cons c p' ih =>
    intro s
    cases s with
    | nil =>
      simp [List.isPrefixOf]
    | cons d s' =>
      simp [List.isPrefixOf, ih s', List.cons_prefix_cons]

lemma inf_of_pre {x l : List Char} (h : x <+: l) : x <:+: l := by
  obtain ⟨t, ht⟩ := h
  exact ⟨[], t, by simpa using ht⟩

lemma inf_cons_cases {x : List Char} {c : Char} {l : List Char}
    (h : x <:+: c :: l) : x <+: c :: l ∨ x <:+: l := by
  obtain ⟨s, t, hst⟩ := h
  cases s with
  | nil => exact Or.inl ⟨t, by simpa using hst⟩
  | cons d s' =>
    simp only [List.cons_append, List.cons.injEq] at hst
    exact Or.inr ⟨s', t, hst.2⟩

lemma pre_append_cases {x a b : List Char} (h : x <+: a ++ b) :
    x <+: a ∨ ∃ x2, x = a ++ x2 ∧ x2 <+: b := by
  obtain ⟨t, ht⟩ := h
  rcases List.append_eq_append_iff.mp ht with ⟨a', h1, _⟩ | ⟨c', h1, h2⟩
  · exact Or.inl ⟨a', h1.symm⟩
  · exact Or.inr ⟨c', h1, ⟨t, h2.symm⟩⟩

lemma inf_append_cases : ∀ (a x b : List Char), x <:+: a ++ b →
    x <:+: a ∨ x <:+: b ∨
      ∃ x1 x2, x = x1 ++ x2 ∧ x1 ≠ [] ∧ x1 <:+ a ∧ x2 <+: b := by
  intro a
  induction a with
  | nil => intro x b h; exact Or.inr (Or.inl (by simpa using h))
  | cons c a' ih =>
    intro x b h
    rcases inf_cons_cases (by simpa using h) with hpre | hinf
    · rcases pre_append_cases (a := c :: a') hpre with h1 | ⟨x2, hx, hx2⟩
      · exact Or.inl (inf_of_pre h1)
      · cases x2 with
        | nil =>
          rw [List.append_nil] at hx
          subst hx
          exact Or.inl (List.infix_refl _)
        | cons d x2' =>
          exact Or.inr (Or.inr ⟨c :: a', d :: x2', hx, by simp,
            List.suffix_refl _, hx2⟩)
    · rcases ih x b hinf with h1 | h2 | ⟨x1, x2, hx, hne, hsuf, hpre2⟩
      · obtain ⟨s, t, hst⟩ := h1
        exact Or.inl ⟨c :: s, t, by simp [hst]⟩
      · exact Or.inr (Or.inl h2)
      · obtain ⟨s, hst⟩ := hsuf
        exact Or.inr (Or.inr ⟨x1, x2, hx, hne, ⟨c :: s, by simp [hst]⟩,
          hpre2⟩)

lemma replaceFuel_nil (pat rep : List Char) (f : Nat) :
    replaceFuel pat rep f [] = [] := by
  cases f <;> rfl

lemma shallStr_eq : shallStr = 's' :: 'h' :: 'a' :: 'l' :: 'l' :: [] := rfl

lemma mustStr_eq : mustStr = 'm' :: 'u' :: 's' :: 't' :: [] := rfl

lemma lad1 : ∀ (fuel : Nat) (cs : List Char),
    ('l' :: []) <+: replaceFuel shallStr mustStr fuel cs →
      ('l' :: []) <+: cs := by
  intro fuel
  induction fuel with
  | zero =>
    intro cs h
    cases cs with
    | nil => simp [replaceFuel_nil] at h
    | cons c cs' => exact h
  | succ fuel ih =>
    intro cs h
    cases cs with
    | nil => simp [replaceFuel_nil] at h
    | cons c cs' =>
      by_cases hm : (shallStr.isPrefixOf (c :: cs') && !shallStr.isEmpty) = true
      · simp only [replaceFuel] at h
        rw [if_pos hm, mustStr_eq] at h
        obtain ⟨t, ht⟩ := h
        injection ht with h1 _
        cases h1
      · simp only [replaceFuel] at h
        rw [if_neg hm] at h
        obtain ⟨t, ht⟩ := h
        injection ht with h1 _
        subst h1
        exact ⟨cs', rfl⟩

lemma lad2 : ∀ (fuel : Nat) (cs : List Char),
    ('l' :: 'l' :: []) <+: replaceFuel shallStr mustStr fuel cs →
      ('l' :: 'l' :: []) <+: cs := by
  intro fuel
  induction fuel with
  | zero =>
    intro cs h
    cases cs with
    | nil => simp [replaceFuel_nil] at h
    | cons c cs' => exact h
  | succ fuel ih =>
    intro cs h
    cases cs with
    | nil => simp [replaceFuel_nil] at h
    | cons c cs' =>
      by_cases hm : (shallStr.isPrefixOf (c :: cs') && !shallStr.isEmpty) = true
      · simp only [replaceFuel] at h
        rw [if_pos hm, mustStr_eq] at h
        obtain ⟨t, ht⟩ := h
        injection ht with h1 _
        cases h1
      · simp only [replaceFuel] at h
        rw [if_neg hm] at h
        obtain ⟨t, ht⟩ := h
        injection ht with h1 h2
        subst h1
        obtain ⟨t', ht'⟩ := lad1 fuel cs' ⟨t, h2⟩
        exact ⟨t', by rw [← ht']; rfl⟩

lemma lad3 : ∀ (fuel : Nat) (cs : List Char),
    ('a' :: 'l' :: 'l' :: []) <+: replaceFuel shallStr mustStr fuel cs →
      ('a' :: 'l' :: 'l' :: []) <+: cs := by
  intro fuel
  induction fuel with
  | zero =>
    intro cs h
    cases cs with
    | nil => simp [replaceFuel_nil] at h
    | cons c cs' => exact h
  | succ fuel ih =>
    intro cs h
    cases cs with
    | nil => simp [replaceFuel_nil] at h
    | cons c cs' =>
      by_cases hm : (shallStr.isPrefixOf (c :: cs') && !shallStr.isEmpty) = true
      · simp only [replaceFuel] at h
        rw [if_pos hm, mustStr_eq] at h
        obtain ⟨t, ht⟩ := h
        injection ht with h1 _
        cases h1
      · simp only [replaceFuel] at h
        rw [if_neg hm] at h
        obtain ⟨t, ht⟩ := h
        injection ht with h1 h2
        subst h1
        obtain ⟨t', ht'⟩ := lad2 fuel cs' ⟨t, h2⟩
        exact ⟨t', by rw [← ht']; rfl⟩

lemma lad4 : ∀ (fuel : Nat) (cs : List Char),
    ('h' :: 'a' :: 'l' :: 'l' :: []) <+: replaceFuel shallStr mustStr fuel cs →
      ('h' :: 'a' :: 'l' :: 'l' :: []) <+: cs := by
  intro fuel
  induction fuel with
  | zero =>
    intro cs h
    cases cs with
    | nil => simp [replaceFuel_nil] at h
    | cons c cs' => exact h
  | succ fuel ih =>
    intro cs h
    cases cs with
    | nil => simp [replaceFuel_nil] at h
    | cons c cs' =>
      by_cases hm : (shallStr.isPrefixOf (c :: cs') && !shallStr.isEmpty) = true
      · simp only [replaceFuel] at h
        rw [if_pos hm, mustStr_eq] at h
        obtain ⟨t, ht⟩ := h
        injection ht with h1 _
        cases h1
      · simp only [replaceFuel] at h
        rw [if_neg hm] at h
        obtain ⟨t, ht⟩ := h
        injection ht with h1 h2
        subst h1
        obtain ⟨t', ht'⟩ := lad3 fuel cs' ⟨t, h2⟩
        exact ⟨t', by rw [← ht']; rfl⟩

lemma replaceFuel_no_shall : ∀ (fuel : Nat) (t : List Char),
    t.length ≤ fuel →
      ¬ (shallStr <:+: replaceFuel shallStr mustStr fuel t) := by
  intro fuel
  induction fuel with
  | zero =>
    intro t ht h
    have ht0 : t = [] := List.length_eq_zero.mp (Nat.le_zero.mp ht)
    subst ht0
    rw [replaceFuel_nil] at h
    exact absurd h (by decide)
  | succ fuel ih =>
    intro t ht h
    cases t with
    | nil =>
      rw [replaceFuel_nil] at h
      exact absurd h (by decide)
    | cons c cs =>
      by_cases hm : (shallStr.isPrefixOf (c :: cs) && !shallStr.isEmpty) = true
      · simp only [replaceFuel] at h
        rw [if_pos hm] at h
        have hlen : ((c :: cs).drop shallStr.length).length ≤ fuel := by
          have h5 : shallStr.length = 5 := rfl
          rw [List.length_drop, h5]
          simp only [List.length_cons] at ht ⊢
          omega
        rcases inf_append_cases mustStr shallStr _ h with
          h1 | h2 | ⟨x1, x2, hx, hne, hsuf, _⟩
        · exact absurd h1 (by decide)
        · exact ih _ hlen h2
        · have hx1 : x1 ∈ mustStr.tails := (List.mem_tails _ _).mpr hsuf
          rw [mustStr_eq] at hx1
          rw [shallStr_eq] at hx
          fin_cases hx1 <;> simp_all
      · simp only [replaceFuel] at h
        rw [if_neg hm] at h
        rcases inf_cons_cases h with hpre | hinf
        · obtain ⟨t2, ht2⟩ := hpre
          rw [shallStr_eq] at ht2
          injection ht2 with hc hrest
          have hh : ('h' :: 'a' :: 'l' :: 'l' :: []) <+:
              replaceFuel shallStr mustStr fuel cs := ⟨t2, hrest⟩
          obtain ⟨t3, ht3⟩ := lad4 fuel cs hh
          apply hm
          have hp : shallStr <+: c :: cs := by
            rw [shallStr_eq, ← hc]
            exact ⟨t3, by rw [← ht3]; rfl⟩
          rw [Bool.and_eq_true]
          exact ⟨(isPrefixOf_true_iff _ _).mpr hp, rfl⟩
        · exact ih cs (by simp only [List.length_cons] at ht; omega) hinf

lemma pyReplace_no_shall (s : List Char) :
    ¬ (shallStr <:+: pyReplace s shallStr mustStr) :=
  replaceFuel_no_shall s.length s le_rfl

lemma replaceFuel_id_of_no_occ (pat rep : List Char) : ∀ (fuel : Nat)
    (s : List Char), ¬ (pat <:+: s) → replaceFuel pat rep fuel s = s := by
  intro fuel
  induction fuel with
  | zero =>
    intro s _
    cases s with
    | nil => rfl
    | cons c cs => rfl
  | succ fuel ih =>
    intro s h
    cases s with
    | nil => rfl
    | cons c cs =>
      have hnp : ¬ (pat.isPrefixOf (c :: cs) && !pat.isEmpty) = true := by
        intro hq
        simp only [Bool.and_eq_true] at hq
        exact h (inf_of_pre ((isPrefixOf_true_iff _ _).mp hq.1))
      simp only [replaceFuel]
      rw [if_neg hnp]
      congr 1
      apply ih
      intro hin
      apply h
      obtain ⟨s1, t1, hst⟩ := hin
      exact ⟨c :: s1, t1, by simp [hst]⟩

lemma pyReplace_id_of_no_occ (s pat rep : List Char)
    (h : ¬ (pat <:+: s)) : pyReplace s pat rep = s :=
  replaceFuel_id_of_no_occ pat rep s.length s h

/-- C10: the obligation rewrites are case-sensitive plain substring
replacements with no word-boundary check.  (1) No occurrence of the exact
substring `"shall"` survives in any returned obligation entry — every one,
word-internal ones included, has been replaced.  (2) A sentence without the
exact lowercase `"shall"` is left unchanged by the `shall → must` rewrite,
so occurrences differing only in case survive.  (3) Selection itself is
case-insensitive: a sentence containing only `"Shall"` is still selected,
and its `"Shall"` is kept verbatim while `"The Client"` is rewritten.
(4) The replacement applies inside longer words (`"Marshall"` becomes
`"Marmust"`). -/
theorem spec_C10 :
    (∀ text : List Char, ∀ e ∈ extract_key_obligations text,
      ¬ (shallStr <:+: e)) ∧
    (∀ s : List Char, ¬ (shallStr <:+: s) →
      pyReplace s shallStr mustStr = s) ∧
    extract_key_obligations "The Client Shall pay within 30 days.".data =
      ["You Shall pay within 30 days".data] ∧
    extract_key_obligations "Marshall wrote this.".data =
      ["Marmust wrote this".data] := by
  refine ⟨?_, ?_, by decide, by decide⟩
  · intro text e he
    unfold extract_key_obligations at he
    obtain ⟨s, _, rfl⟩ := List.mem_map.mp (List.mem_of_mem_take he)
    exact pyReplace_no_shall _
  · intro s h
    exact pyReplace_id_of_no_occ s shallStr mustStr h

/-! ### Evaluation of the pipeline at the built-in sample document
(claim C1) -/

/-- The value of `extract_key_terms` on the cleaned sample document. -/
def sampleKeyTerms : List (List Char) :=
  ["SERVICE AGREEMENT This Service Agreement".data,
    "LIABILITY LIMITATION Providers liability shall not exceed the total amount paid by Client under this Agreement".data,
    "GOVERNING LAW This Agreement".data,
    "TERMINATION Either party may terminate this Agreement".data,
    "LIABILITY".data, "liability".data, "GOVERNING LAW".data,
    "arbitration".data, "CONFIDENTIALITY".data, "confidentiality".data,
    "TERMINATION".data, "PAYMENT".data, "Payment".data]

set_option maxRecDepth 40000 in
/-- C1 evaluation: on the sample service agreement the pipeline's report has
an EMPTY sections list (length 0, not 6): `analyze_document` hands the
cleaned text — whose newlines were collapsed to spaces — to
`analyze_document_structure`, which can then never see a numbered line.  The
same structure analyzer applied to the raw sample does find the 6 numbered
sections, which is what the scenario describes.  The other parts of the
scenario hold: the four legal concepts are detected (as the exact matches
`"liability"`, `"arbitration"`, `"TERMINATION"`, `"CONFIDENTIALITY"` /
`"confidentiality"` — note the exact lowercase strings `"termination"` and
`"confidential"` are not in the set), and a readability tier is computed
without error. -/
theorem spec_C1 :
    ((analyze sampleLegalText).structureInfo.sections).length = 0 ∧
    ((analyze_document_structure sampleLegalText).sections).length = 6 ∧
    (analyze sampleLegalText).key_terms = sampleKeyTerms ∧
    "liability".data ∈ sampleKeyTerms ∧
    "arbitration".data ∈ sampleKeyTerms ∧
    "TERMINATION".data ∈ sampleKeyTerms ∧
    "CONFIDENTIALITY".data ∈ sampleKeyTerms ∧
    "confidentiality".data ∈ sampleKeyTerms ∧
    "termination".data ∉ sampleKeyTerms ∧
    "confidential".data ∉ sampleKeyTerms ∧
    (∃ q sc lv, (analyze sampleLegalText).readability =
      .scored q 157 19 sc lv) := by
  refine ⟨by decide, by decide, by decide, by decide, by decide, by decide,
    by decide, by decide, by decide, by decide, ?_⟩
  have hw : (pySplitWs (clean_text sampleLegalText)).length = 157 := by
    decide
  have hs : (readabilitySentences (clean_text sampleLegalText)).length = 19 :=
    by decide
  obtain ⟨q, sc, lv, heq, -, -⟩ :=
    @calculate_readability_scored (clean_text sampleLegalText) (by decide)
  refine ⟨q, sc, lv, ?_⟩
  show calculate_readability (clean_text sampleLegalText) = _
  rw [heq, hw, hs]

/-- C10 witness: the universal parts applied at concrete inputs. -/
theorem spec_C10_witness :
    ¬ (shallStr <:+: "You must pay within 30 days".data) ∧
    pyReplace "yes".data shallStr mustStr = "yes".data :=
  ⟨spec_C10.1 "The Client shall pay within 30 days.".data
      "You must pay within 30 days".data (by decide),
    spec_C10.2.1 "yes".data (by decide)⟩

end LegalDemo
